import Mathlib

/-!
# CEP race: two address providers, one buffered channel, one select

Shallow embedding of `main.go`.

* `fetch` (lines 51-78) is a straight-line chain of four library calls.  The library is a
  parameter (`World`), and `fetch` is embedded as the list of effects it performs, in
  program order: the calls it makes and the single channel send it ends with.
* `fetchFromBrasilAPI` / `fetchFromViaCEP` (lines 41-49) build the URL with `fmt.Sprintf`
  and call `fetch`.
* `main` (lines 18-39) creates a channel of capacity 2, launches the two fetchers as
  goroutines and runs one `select`.  Goroutines are embedded as a step function on an
  explicit state: every interleaving of the three goroutines and of the deadline timer is a
  list of `Action`s.
-/

namespace CepRace

/-! ## Library values -/

/-- The `*http.Request` built by `http.NewRequestWithContext`. -/
structure Request where
  Method : String
  URL : String
deriving DecidableEq, Repr

/-- The `*url.Error` value: the Go documentation of `Client.Do` states that any error it
returns is of this type. -/
structure UrlError where
  Op : String
  URL : String
  Err : String
deriving DecidableEq, Repr

/-- An error returned by `Read` on a response body, hence by `io.ReadAll`. -/
structure ReadError where
  msg : String
deriving DecidableEq, Repr

/-- An error returned by `json.Unmarshal` (`*json.SyntaxError`, `*json.UnmarshalTypeError`). -/
structure JsonError where
  msg : String
deriving DecidableEq, Repr

/-- A non-nil value of Go's `error` interface, as it reaches `fetch`: an interface value
carries its dynamic type, which is the constructor here. -/
inductive GoError where
  | url (e : UrlError)
  | read (e : ReadError)
  | json (e : JsonError)
  | other (msg : String)
deriving DecidableEq, Repr

/-- The struct `APIResponse` (lines 12-16).  `Address` is a Go map, whose zero value `nil` is
`none`; `Error` is an interface, whose zero value `nil` is `none`. -/
structure APIResponse (A : Type) where
  Source : String
  Address : Option A
  Error : Option GoError
deriving DecidableEq, Repr

/-- The four library calls of `fetch`, as functions of their argument.  `unmarshal` returns
the value left in `result`, which stays `nil` when the body is the JSON text `null`. -/
structure World (Resp Body A : Type) where
  newRequest : String → String → Except GoError Request
  clientDo : Request → Except UrlError Resp
  readAll : Resp → Except ReadError Body
  unmarshal : Body → Except JsonError (Option A)

/-! ## `fmt.Sprintf` on string operands -/

/-- Rendering of the operands left over after the format is exhausted, inside
`%!(EXTRA ...)`. -/
def extraOperands : List String → List Char
  | [] => []
  | [a] => "string=".data ++ a.data
  | a :: b :: rest => "string=".data ++ a.data ++ ", ".data ++ extraOperands (b :: rest)

/-- The fragment of `fmt.Sprintf` for string operands and verbs without flags: `%s` and `%v`
print the operand as it is, `%%` prints a percent sign, any other verb is reported as a bad
verb, a verb without operand as missing, a lone final `%` as `%!(NOVERB)`, and unused
operands as `%!(EXTRA ...)`.  Text outside verbs is copied. -/
def sprintfChars : List Char → List String → List Char
  | [], [] => []
  | [], a :: args => "%!(EXTRA ".data ++ extraOperands (a :: args) ++ [')']
  | [c], args =>
    if c = '%' then "%!(NOVERB)".data ++ sprintfChars [] args
    else c :: sprintfChars [] args
  | c :: v :: rest, args =>
    if c = '%' then
      if v = '%' then '%' :: sprintfChars rest args
      else
        match args with
        | [] => "%!".data ++ [v] ++ "(MISSING)".data ++ sprintfChars rest []
        | a :: args =>
          if v = 's' ∨ v = 'v' then a.data ++ sprintfChars rest args
          else "%!".data ++ [v] ++ "(string=".data ++ a.data ++ [')'] ++ sprintfChars rest args
    else c :: sprintfChars (v :: rest) args

/-- The call `fmt.Sprintf(format, args...)`. -/
def sprintf (format : String) (args : List String) : String :=
  String.mk (sprintfChars format.data args)

/-! ## The fetchers -/

/-- What a fetcher goroutine does, one entry per statement with an effect outside the
goroutine. -/
inductive Effect (A : Type) where
  | newRequest (method url : String)
  | clientDo (req : Request)
  | readAll
  | unmarshal
  | send (res : APIResponse A)
  | closeBody
deriving DecidableEq, Repr

variable {Resp Body A : Type}

/-- The function `fetch` (lines 51-78): each failing call sends the error it returned and
returns; the deferred `resp.Body.Close()` runs at return once `Do` has succeeded. -/
def fetch (w : World Resp Body A) (url source : String) : List (Effect A) :=
  match w.newRequest "GET" url with
  | .error err =>
    [.newRequest "GET" url, .send { Source := source, Address := none, Error := some err }]
  | .ok req =>
    match w.clientDo req with
    | .error err =>
      [.newRequest "GET" url, .clientDo req,
        .send { Source := source, Address := none, Error := some (.url err) }]
    | .ok resp =>
      match w.readAll resp with
      | .error err =>
        [.newRequest "GET" url, .clientDo req, .readAll,
          .send { Source := source, Address := none, Error := some (.read err) }, .closeBody]
      | .ok body =>
        match w.unmarshal body with
        | .error err =>
          [.newRequest "GET" url, .clientDo req, .readAll, .unmarshal,
            .send { Source := source, Address := none, Error := some (.json err) }, .closeBody]
        | .ok result =>
          [.newRequest "GET" url, .clientDo req, .readAll, .unmarshal,
            .send { Source := source, Address := result, Error := none }, .closeBody]

/-- The function `fetchFromBrasilAPI` (lines 41-44). -/
def fetchFromBrasilAPI (w : World Resp Body A) (cep : String) : List (Effect A) :=
  let url := sprintf "https://brasilapi.com.br/api/cep/v1/%s" [cep]
  fetch w url "BrasilAPI"

/-- The function `fetchFromViaCEP` (lines 46-49). -/
def fetchFromViaCEP (w : World Resp Body A) (cep : String) : List (Effect A) :=
  let url := sprintf "http://viacep.com.br/ws/%s/json/" [cep]
  fetch w url "ViaCEP"

/-- The responses a goroutine sends on the channel, in order. -/
def sends : List (Effect A) → List (APIResponse A)
  | [] => []
  | .send res :: rest => res :: sends rest
  | _ :: rest => sends rest

/-- The requests a goroutine passes to `http.DefaultClient.Do`, in order. -/
def networkCalls : List (Effect A) → List Request
  | [] => []
  | .clientDo req :: rest => req :: networkCalls rest
  | _ :: rest => networkCalls rest

/-- The URLs a goroutine passes to `http.NewRequestWithContext`, in order. -/
def requestedURLs : List (Effect A) → List String
  | [] => []
  | .newRequest _ url :: rest => url :: requestedURLs rest
  | _ :: rest => requestedURLs rest

/-! ## The race: `main` -/

/-- What `main` reports: one constructor per branch of the `select` (lines 28-38). -/
inductive RaceResult (A : Type) where
  | timeout
  | error (err : GoError)
  | fastest (source : String) (address : Option A)
deriving DecidableEq, Repr

/-- The communication a `select` commits to: `ctx.Done()` is closed, or a response is
received from `resultChan`. -/
inductive SelectEvent (A : Type) where
  | ctxDone
  | recv (res : APIResponse A)
deriving DecidableEq, Repr

/-- The bodies of the two cases of the `select` (lines 29-37). -/
def selectCase : SelectEvent A → RaceResult A
  | .ctxDone => .timeout
  | .recv res =>
    match res.Error with
    | some err => .error err
    | none => .fastest res.Source res.Address

/-- The goroutine of `main`: blocked in the `select`, or returned with its report. -/
inductive Coordinator (A : Type) where
  | waiting
  | returned (result : RaceResult A)
deriving DecidableEq, Repr

/-- The state shared by the three goroutines: the buffer of `resultChan` in FIFO order, the
two ways `ctx.Done()` gets closed (the one-second timer, the deferred `cancel`), what each
fetcher goroutine has left to do, and the goroutine of `main`. -/
structure State (A : Type) where
  resultChan : List (APIResponse A)
  deadlinePassed : Bool
  cancelCalled : Bool
  brasilAPI : List (Effect A)
  viaCEP : List (Effect A)
  coordinator : Coordinator A
deriving DecidableEq, Repr

/-- The capacity given to `make(chan APIResponse, 2)` (line 23). -/
def chanCapacity : Nat := 2

/-- Whether `ctx.Done()` is closed. -/
def State.ctxDone (s : State A) : Bool := s.deadlinePassed || s.cancelCalled

/-- One scheduling choice: run the next statement of a fetcher, fire the timer of the
context, or let the `select` of `main` take one of its two cases. -/
inductive Action where
  | brasilAPI
  | viaCEP
  | deadline
  | selectDone
  | selectRecv
deriving DecidableEq, Repr

/-- The next statement of a fetcher goroutine.  A send on a buffered channel completes when
the buffer has room and blocks (`none`) when it is full; a finished goroutine has no step. -/
def stepFetcher (chan : List (APIResponse A)) :
    List (Effect A) → Option (List (APIResponse A) × List (Effect A))
  | [] => none
  | .send res :: rest =>
    if chan.length < chanCapacity then some (chan ++ [res], rest) else none
  | _ :: rest => some (chan, rest)

/-- One step of the program; `none` when the chosen goroutine cannot move.  The `select`
takes a case only while `main` is still in it, and `main` returns right after, which runs
the deferred `cancel`. -/
def step (s : State A) : Action → Option (State A)
  | .brasilAPI =>
    match stepFetcher s.resultChan s.brasilAPI with
    | some (chan, prog) => some { s with resultChan := chan, brasilAPI := prog }
    | none => none
  | .viaCEP =>
    match stepFetcher s.resultChan s.viaCEP with
    | some (chan, prog) => some { s with resultChan := chan, viaCEP := prog }
    | none => none
  | .deadline =>
    if s.deadlinePassed then none else some { s with deadlinePassed := true }
  | .selectDone =>
    match s.coordinator with
    | .waiting =>
      if s.ctxDone then
        some { s with coordinator := .returned (selectCase .ctxDone), cancelCalled := true }
      else none
    | .returned _ => none
  | .selectRecv =>
    match s.coordinator, s.resultChan with
    | .waiting, res :: rest =>
      some { s with
        resultChan := rest
        coordinator := .returned (selectCase (.recv res))
        cancelCalled := true }
    | _, _ => none

/-- A schedule, step by step; `none` when one of its steps cannot be taken. -/
def run (s : State A) : List Action → Option (State A)
  | [] => some s
  | a :: rest =>
    match step s a with
    | some t => run t rest
    | none => none

/-- The function `main` up to its `select` (lines 19-26): the context is live, the channel is
empty and both fetchers are launched on the same `cep`. -/
def main (w : World Resp Body A) : State A :=
  let cep := "01153000"
  { resultChan := []
    deadlinePassed := false
    cancelCalled := false
    brasilAPI := fetchFromBrasilAPI w cep
    viaCEP := fetchFromViaCEP w cep
    coordinator := .waiting }

/-- The communication the `select` commits to when it takes the case `a` in state `s`:
`ctx.Done()` has to be closed for the first case, a response has to be at the head of the
buffer for the second. -/
def observed (s : State A) : Action → Option (SelectEvent A)
  | .selectDone => if s.ctxDone then some .ctxDone else none
  | .selectRecv =>
    match s.resultChan with
    | res :: _ => some (.recv res)
    | [] => none
  | _ => none

/-- How many times a schedule lets the `select` take a case. -/
def selectCount (acts : List Action) : Nat :=
  acts.count .selectDone + acts.count .selectRecv

/-- Responses in the buffer plus responses the two fetchers have still to send. -/
def load (s : State A) : Nat :=
  s.resultChan.length + (sends s.brasilAPI).length + (sends s.viaCEP).length

/-! ## Worlds used as concrete inputs -/

/-- A JSON object as a list of fields, enough for concrete inputs. -/
abbrev Fields := List (String × String)

/-- Both providers answer with a body that parses. -/
def worldBothAnswer : World Nat String Fields where
  newRequest := fun method url => .ok { Method := method, URL := url }
  clientDo := fun _ => .ok 200
  readAll := fun _ => .ok "body"
  unmarshal := fun _ => .ok (some [("cep", "01153000"), ("city", "São Paulo")])

/-- BrasilAPI answers status 500 with a body that is not JSON; ViaCEP answers with a body
that parses. -/
def worldBrasilBadBody : World Nat String Fields where
  newRequest := fun method url => .ok { Method := method, URL := url }
  clientDo := fun req =>
    if req.URL = "https://brasilapi.com.br/api/cep/v1/01153000" then .ok 500 else .ok 200
  readAll := fun resp => if resp = 500 then .ok "<html>" else .ok "body"
  unmarshal := fun body =>
    if body = "<html>" then
      .error { msg := "invalid character '<' looking for beginning of value" }
    else .ok (some [("cep", "01153000"), ("city", "São Paulo")])

/-- Every body is read in full and none of them parses. -/
def worldBadJSON : World Nat String Fields where
  newRequest := fun method url => .ok { Method := method, URL := url }
  clientDo := fun _ => .ok 500
  readAll := fun _ => .ok "<html>"
  unmarshal := fun _ => .error { msg := "invalid character '<' looking for beginning of value" }

/-- The stream of every body breaks while it is read. -/
def worldBrokenBody : World Nat String Fields where
  newRequest := fun method url => .ok { Method := method, URL := url }
  clientDo := fun _ => .ok 200
  readAll := fun _ => .error { msg := "unexpected EOF" }
  unmarshal := fun _ => .ok none

/-- Every body is the JSON text `null`, read in full.  `json.Unmarshal` of `null` into a map
returns no error and leaves the map `nil`. -/
def worldNullBody : World Nat String Fields where
  newRequest := fun method url => .ok { Method := method, URL := url }
  clientDo := fun _ => .ok 200
  readAll := fun _ => .ok "null"
  unmarshal := fun body =>
    if body = "null" then .ok none
    else .error { msg := "unexpected end of JSON input" }

/-- A condition every JSON object meets: after leading white space its text starts with an
opening brace (character 123). -/
def startsObject (body : String) : Bool :=
  match body.data.dropWhile Char.isWhitespace with
  | c :: _ => c == Char.ofNat 123
  | [] => false

/-- A URL with an invalid escape cannot be turned into a request. -/
def worldStrictURL : World Nat String Fields where
  newRequest := fun method url =>
    if url = "http://viacep.com.br/ws/%zz/json/" then
      .error (.url { Op := "parse", URL := url, Err := "invalid URL escape" })
    else .ok { Method := method, URL := url }
  clientDo := fun _ => .ok 200
  readAll := fun _ => .ok "body"
  unmarshal := fun _ => .ok (some [])

/-! ## States used as concrete inputs -/

/-- The Failure that `fetch` sends for BrasilAPI in `worldBrasilBadBody`. -/
def brasilFailure : APIResponse Fields :=
  { Source := "BrasilAPI", Address := none,
    Error := some (.json { msg := "invalid character '<' looking for beginning of value" }) }

/-- The Success that `fetch` sends for ViaCEP when the body parses. -/
def viaCEPSuccess : APIResponse Fields :=
  { Source := "ViaCEP", Address := some [("cep", "01153000"), ("city", "São Paulo")],
    Error := none }

/-- The Success that `fetch` sends for BrasilAPI when the body parses. -/
def brasilSuccess : APIResponse Fields :=
  { Source := "BrasilAPI", Address := some [("cep", "01153000"), ("city", "São Paulo")],
    Error := none }

/-- In `worldBrasilBadBody`: the Failure of BrasilAPI is in the buffer, ViaCEP is still
waiting for its body, the context is live and `main` is in its `select`. -/
def failureBuffered : State Fields :=
  { resultChan := [brasilFailure]
    deadlinePassed := false
    cancelCalled := false
    brasilAPI := [.closeBody]
    viaCEP := [.readAll, .unmarshal, .send viaCEPSuccess, .closeBody]
    coordinator := .waiting }

/-- The state `failureBuffered` after the `select` has received and both fetchers have
finished. -/
def failureSettled : State Fields :=
  { resultChan := [viaCEPSuccess]
    deadlinePassed := false
    cancelCalled := true
    brasilAPI := []
    viaCEP := []
    coordinator := .returned (.error
      (.json { msg := "invalid character '<' looking for beginning of value" })) }

/-- In `worldBothAnswer`: the Success of ViaCEP is in the buffer, BrasilAPI has only built
its request, the context is live and `main` is in its `select`. -/
def successBuffered : State Fields :=
  { resultChan := [viaCEPSuccess]
    deadlinePassed := false
    cancelCalled := false
    brasilAPI := [.clientDo { Method := "GET",
                              URL := "https://brasilapi.com.br/api/cep/v1/01153000" },
                  .readAll, .unmarshal, .send brasilSuccess, .closeBody]
    viaCEP := [.closeBody]
    coordinator := .waiting }

/-- In `worldBothAnswer`: the deadline has passed while both fetchers wait for an answer and
the buffer is empty. -/
def deadlineFirst : State Fields :=
  { resultChan := []
    deadlinePassed := true
    cancelCalled := false
    brasilAPI := [.clientDo { Method := "GET",
                              URL := "https://brasilapi.com.br/api/cep/v1/01153000" },
                  .readAll, .unmarshal, .send brasilSuccess, .closeBody]
    viaCEP := [.clientDo { Method := "GET", URL := "http://viacep.com.br/ws/01153000/json/" },
               .readAll, .unmarshal, .send viaCEPSuccess, .closeBody]
    coordinator := .waiting }

/-- In `worldBothAnswer`: `main` has returned on the deadline and both fetchers have then
sent their response. -/
def bothBufferedAfterTimeout : State Fields :=
  { resultChan := [brasilSuccess, viaCEPSuccess]
    deadlinePassed := true
    cancelCalled := true
    brasilAPI := [.closeBody]
    viaCEP := []
    coordinator := .returned .timeout }

/-- The Failure that `fetch` sends for ViaCEP in `worldBadJSON`. -/
def viaCEPFailure : APIResponse Fields :=
  { Source := "ViaCEP", Address := none,
    Error := some (.json { msg := "invalid character '<' looking for beginning of value" }) }

/-- In `worldBadJSON`: the Failure of BrasilAPI is in the buffer, ViaCEP has not started,
the context is live and `main` is in its `select`. -/
def failureBufferedEarly : State Fields :=
  { resultChan := [brasilFailure]
    deadlinePassed := false
    cancelCalled := false
    brasilAPI := [.closeBody]
    viaCEP := [.newRequest "GET" "http://viacep.com.br/ws/01153000/json/",
               .clientDo { Method := "GET", URL := "http://viacep.com.br/ws/01153000/json/" },
               .readAll, .unmarshal, .send viaCEPFailure, .closeBody]
    coordinator := .waiting }

/-- The state `failureBufferedEarly` right after the `select` has received. -/
def failureSettledEarly : State Fields :=
  { resultChan := []
    deadlinePassed := false
    cancelCalled := true
    brasilAPI := [.closeBody]
    viaCEP := [.newRequest "GET" "http://viacep.com.br/ws/01153000/json/",
               .clientDo { Method := "GET", URL := "http://viacep.com.br/ws/01153000/json/" },
               .readAll, .unmarshal, .send viaCEPFailure, .closeBody]
    coordinator := .returned (.error
      (.json { msg := "invalid character '<' looking for beginning of value" })) }

/-! ## `fmt.Sprintf`: text is copied, `%s` is replaced by its operand -/

theorem sprintfChars_literal (c : Char) (tail : List Char) (args : List String)
    (hc : c ≠ '%') : sprintfChars (c :: tail) args = c :: sprintfChars tail args := by
  cases tail with
  | nil => simp [sprintfChars, hc]
  | cons v rest => simp [sprintfChars, hc]

theorem sprintfChars_text (lit tail : List Char) (args : List String)
    (hlit : ∀ c ∈ lit, c ≠ '%') :
    sprintfChars (lit ++ tail) args = lit ++ sprintfChars tail args := by
  induction lit with
  | nil => rfl
  | cons c lit ih =>
    have hc : c ≠ '%' := hlit c (List.mem_cons_self c lit)
    have hrest : ∀ d ∈ lit, d ≠ '%' := fun d hd => hlit d (List.mem_cons_of_mem c hd)
    rw [List.cons_append, sprintfChars_literal c (lit ++ tail) args hc, ih hrest,
      List.cons_append]

theorem sprintfChars_verb_s (tail : List Char) (a : String) (args : List String) :
    sprintfChars ('%' :: 's' :: tail) (a :: args) = a.data ++ sprintfChars tail args := by
  simp [sprintfChars]

theorem sprintf_brasilAPI (cep : String) :
    sprintf "https://brasilapi.com.br/api/cep/v1/%s" [cep]
      = "https://brasilapi.com.br/api/cep/v1/" ++ cep := by
  have hfmt : "https://brasilapi.com.br/api/cep/v1/%s".data
      = "https://brasilapi.com.br/api/cep/v1/".data ++ ('%' :: 's' :: []) := by decide
  have hlit : ∀ c ∈ "https://brasilapi.com.br/api/cep/v1/".data, c ≠ '%' := by decide
  apply String.ext
  rw [sprintf, hfmt, sprintfChars_text _ _ _ hlit, sprintfChars_verb_s]
  simp [sprintfChars]

theorem sprintf_viaCEP (cep : String) :
    sprintf "http://viacep.com.br/ws/%s/json/" [cep]
      = "http://viacep.com.br/ws/" ++ cep ++ "/json/" := by
  have hfmt : "http://viacep.com.br/ws/%s/json/".data
      = "http://viacep.com.br/ws/".data ++ ('%' :: 's' :: "/json/".data) := by decide
  have hlit : ∀ c ∈ "http://viacep.com.br/ws/".data, c ≠ '%' := by decide
  have htail : ∀ c ∈ "/json/".data, c ≠ '%' := by decide
  have hrest := sprintfChars_text "/json/".data [] [] htail
  rw [List.append_nil] at hrest
  apply String.ext
  rw [sprintf, hfmt, sprintfChars_text _ _ _ hlit, sprintfChars_verb_s, hrest]
  simp [sprintfChars]

/-! ## `fetch`: one path out of five, one send on each -/

/-- The responses `fetch` sends, path by path. -/
theorem sends_fetch (w : World Resp Body A) (url source : String) :
    sends (fetch w url source) =
      match w.newRequest "GET" url with
      | .error err => [{ Source := source, Address := none, Error := some err }]
      | .ok req =>
        match w.clientDo req with
        | .error err => [{ Source := source, Address := none, Error := some (.url err) }]
        | .ok resp =>
          match w.readAll resp with
          | .error err => [{ Source := source, Address := none, Error := some (.read err) }]
          | .ok body =>
            match w.unmarshal body with
            | .error err => [{ Source := source, Address := none, Error := some (.json err) }]
            | .ok result => [{ Source := source, Address := result, Error := none }] := by
  unfold fetch
  cases w.newRequest "GET" url with
  | error err => rfl
  | ok req =>
    dsimp only
    cases w.clientDo req with
    | error err => rfl
    | ok resp =>
      dsimp only
      cases w.readAll resp with
      | error err => rfl
      | ok body =>
        dsimp only
        cases w.unmarshal body with
        | error err => rfl
        | ok result => rfl

theorem sends_fetch_length (w : World Resp Body A) (url source : String) :
    (sends (fetch w url source)).length = 1 := by
  rw [sends_fetch]
  cases w.newRequest "GET" url with
  | error err => rfl
  | ok req =>
    dsimp only
    cases w.clientDo req with
    | error err => rfl
    | ok resp =>
      dsimp only
      cases w.readAll resp with
      | error err => rfl
      | ok body =>
        dsimp only
        cases w.unmarshal body with
        | error err => rfl
        | ok result => rfl

theorem networkCalls_fetch (w : World Resp Body A) (url source : String) :
    networkCalls (fetch w url source) =
      match w.newRequest "GET" url with
      | .error _ => []
      | .ok req => [req] := by
  unfold fetch
  cases w.newRequest "GET" url with
  | error err => rfl
  | ok req =>
    dsimp only
    cases w.clientDo req with
    | error err => rfl
    | ok resp =>
      dsimp only
      cases w.readAll resp with
      | error err => rfl
      | ok body =>
        dsimp only
        cases w.unmarshal body with
        | error err => rfl
        | ok result => rfl

theorem requestedURLs_fetch (w : World Resp Body A) (url source : String) :
    requestedURLs (fetch w url source) = [url] := by
  unfold fetch
  cases w.newRequest "GET" url with
  | error err => rfl
  | ok req =>
    dsimp only
    cases w.clientDo req with
    | error err => rfl
    | ok resp =>
      dsimp only
      cases w.readAll resp with
      | error err => rfl
      | ok body =>
        dsimp only
        cases w.unmarshal body with
        | error err => rfl
        | ok result => rfl

/-- C2: for every url, source and world (every combination of results of request
construction, transport, body read and JSON parse), one call of `fetch` sends exactly one
`APIResponse` on the channel: the list of its sends has length one, and the effects of the
call contain exactly one send. -/
theorem fetch_sends_exactly_once (w : World Resp Body A) (url source : String) :
    (sends (fetch w url source)).length = 1 ∧
      ∃ before res after, fetch w url source = before ++ .send res :: after ∧
        sends before = [] ∧ sends after = [] := by
  refine ⟨sends_fetch_length w url source, ?_⟩
  unfold fetch
  cases w.newRequest "GET" url with
  | error err => exact ⟨[_], _, [], rfl, rfl, rfl⟩
  | ok req =>
    dsimp only
    cases w.clientDo req with
    | error err => exact ⟨[_, _], _, [], rfl, rfl, rfl⟩
    | ok resp =>
      dsimp only
      cases w.readAll resp with
      | error err => exact ⟨[_, _, _], _, [_], rfl, rfl, rfl⟩
      | ok body =>
        dsimp only
        cases w.unmarshal body with
        | error err => exact ⟨[_, _, _, _], _, [_], rfl, rfl, rfl⟩
        | ok result => exact ⟨[_, _, _, _], _, [_], rfl, rfl, rfl⟩

/-- C6: `fetch` emits one response, it carries the `source` argument, and it is either a
Success (`Error` nil, `Address` the mapping left by the parse, all four calls succeeded) or
a Failure (`Error` non-nil, `Address` unset, one of the four calls failed); the two named
fetchers emit `"BrasilAPI"` and `"ViaCEP"` as source. -/
theorem fetch_emits_success_or_failure (w : World Resp Body A) (url source cep : String) :
    (∃ res, sends (fetch w url source) = [res] ∧ res.Source = source ∧
      ((res.Error = none ∧
          ∃ req resp body, w.newRequest "GET" url = .ok req ∧ w.clientDo req = .ok resp ∧
            w.readAll resp = .ok body ∧ w.unmarshal body = .ok res.Address) ∨
        (res.Error ≠ none ∧ res.Address = none ∧
          ¬ ∃ req resp body result, w.newRequest "GET" url = .ok req ∧
            w.clientDo req = .ok resp ∧ w.readAll resp = .ok body ∧
            w.unmarshal body = .ok result))) ∧
    (sends (fetchFromBrasilAPI w cep)).map (fun res => res.Source) = ["BrasilAPI"] ∧
    (sends (fetchFromViaCEP w cep)).map (fun res => res.Source) = ["ViaCEP"] := by
  refine ⟨?_, ?_, ?_⟩
  · rw [sends_fetch]
    cases h1 : w.newRequest "GET" url with
    | error err =>
      exact ⟨_, rfl, rfl, Or.inr ⟨by simp, rfl, by simp⟩⟩
    | ok req =>
      dsimp only
      cases h2 : w.clientDo req with
      | error err =>
        refine ⟨_, rfl, rfl, Or.inr ⟨by simp, rfl, ?_⟩⟩
        rintro ⟨req', resp, body, result, h, hb, _⟩
        cases h
        rw [h2] at hb
        cases hb
      | ok resp =>
        dsimp only
        cases h3 : w.readAll resp with
        | error err =>
          refine ⟨_, rfl, rfl, Or.inr ⟨by simp, rfl, ?_⟩⟩
          rintro ⟨req', resp', body, result, h, hb, hc, _⟩
          cases h
          rw [h2] at hb
          cases hb
          rw [h3] at hc
          cases hc
        | ok body =>
          dsimp only
          cases h4 : w.unmarshal body with
          | error err =>
            refine ⟨_, rfl, rfl, Or.inr ⟨by simp, rfl, ?_⟩⟩
            rintro ⟨req', resp', body', result, h, hb, hc, hd⟩
            cases h
            rw [h2] at hb
            cases hb
            rw [h3] at hc
            cases hc
            rw [h4] at hd
            cases hd
          | ok result =>
            exact ⟨_, rfl, rfl, Or.inl ⟨rfl, req, resp, body, rfl, h2, h3, h4⟩⟩
  · obtain ⟨res, hres, hsrc, _⟩ : ∃ res, sends (fetchFromBrasilAPI w cep) = [res] ∧
        res.Source = "BrasilAPI" ∧ True := by
      unfold fetchFromBrasilAPI
      rw [sends_fetch]
      cases w.newRequest "GET" (sprintf "https://brasilapi.com.br/api/cep/v1/%s" [cep]) with
      | error err => exact ⟨_, rfl, rfl, trivial⟩
      | ok req =>
        dsimp only
        cases w.clientDo req with
        | error err => exact ⟨_, rfl, rfl, trivial⟩
        | ok resp =>
          dsimp only
          cases w.readAll resp with
          | error err => exact ⟨_, rfl, rfl, trivial⟩
          | ok body =>
            dsimp only
            cases w.unmarshal body with
            | error err => exact ⟨_, rfl, rfl, trivial⟩
            | ok result => exact ⟨_, rfl, rfl, trivial⟩
    rw [hres, List.map_cons, hsrc, List.map_nil]
  · obtain ⟨res, hres, hsrc, _⟩ : ∃ res, sends (fetchFromViaCEP w cep) = [res] ∧
        res.Source = "ViaCEP" ∧ True := by
      unfold fetchFromViaCEP
      rw [sends_fetch]
      cases w.newRequest "GET" (sprintf "http://viacep.com.br/ws/%s/json/" [cep]) with
      | error err => exact ⟨_, rfl, rfl, trivial⟩
      | ok req =>
        dsimp only
        cases w.clientDo req with
        | error err => exact ⟨_, rfl, rfl, trivial⟩
        | ok resp =>
          dsimp only
          cases w.readAll resp with
          | error err => exact ⟨_, rfl, rfl, trivial⟩
          | ok body =>
            dsimp only
            cases w.unmarshal body with
            | error err => exact ⟨_, rfl, rfl, trivial⟩
            | ok result => exact ⟨_, rfl, rfl, trivial⟩
    rw [hres, List.map_cons, hsrc, List.map_nil]

/-- C7 as stated fails: the body `null` is read in full and is not a JSON object, yet
`json.Unmarshal` returns no error on it, so `fetch` sends a response with a nil `Error` and
a nil `Address`, which `main` treats as a Success, not a Failure. -/
theorem fetch_null_body_is_success :
    worldNullBody.readAll 200 = .ok "null" ∧ startsObject "null" = false ∧
      sends (fetch worldNullBody "http://viacep.com.br/ws/01153000/json/" "ViaCEP")
        = [{ Source := "ViaCEP", Address := none, Error := none }] ∧
      (sends (fetchFromViaCEP worldNullBody "01153000")).map (fun res => res.Error)
        = [none] ∧
      selectCase (.recv { Source := "ViaCEP", Address := (none : Option Fields),
                          Error := none })
        = .fastest "ViaCEP" none :=
  ⟨rfl, by decide, by decide, by decide, by decide⟩

/-- C7, amended: when the body was read in full and `json.Unmarshal` returns an error on it,
`fetch` emits one Failure for its provider whose error is that parse error, and a call of
`fetch` for the same provider that fails in the transport or while reading the body emits a
different response. -/
theorem fetch_parse_failure_distinct (w other : World Resp Body A) (url url' source : String)
    (req : Request) (resp : Resp) (body : Body) (perr : JsonError)
    (hreq : w.newRequest "GET" url = .ok req) (hdo : w.clientDo req = .ok resp)
    (hread : w.readAll resp = .ok body) (hparse : w.unmarshal body = .error perr)
    (req' : Request) (hreq' : other.newRequest "GET" url' = .ok req')
    (hfail : (∃ terr, other.clientDo req' = .error terr) ∨
      (∃ resp' rerr, other.clientDo req' = .ok resp' ∧ other.readAll resp' = .error rerr)) :
    sends (fetch w url source)
        = [{ Source := source, Address := none, Error := some (.json perr) }] ∧
      (∃ res, sends (fetch other url' source) = [res] ∧ res.Source = source ∧
        res.Error ≠ none ∧ res.Error ≠ some (.json perr)) ∧
      sends (fetch other url' source) ≠ sends (fetch w url source) := by
  have hw : sends (fetch w url source)
      = [{ Source := source, Address := none, Error := some (.json perr) }] := by
    rw [sends_fetch, hreq]
    dsimp only
    rw [hdo]
    dsimp only
    rw [hread]
    dsimp only
    rw [hparse]
  refine ⟨hw, ?_⟩
  rw [hw]
  rcases hfail with ⟨terr, hterr⟩ | ⟨resp', rerr, hdo', hrerr⟩
  · have ho : sends (fetch other url' source)
        = [{ Source := source, Address := none, Error := some (.url terr) }] := by
      rw [sends_fetch, hreq']
      dsimp only
      rw [hterr]
    rw [ho]
    exact ⟨⟨_, rfl, rfl, by simp, by simp⟩, by simp⟩
  · have ho : sends (fetch other url' source)
        = [{ Source := source, Address := none, Error := some (.read rerr) }] := by
      rw [sends_fetch, hreq']
      dsimp only
      rw [hdo']
      dsimp only
      rw [hrerr]
    rw [ho]
    exact ⟨⟨_, rfl, rfl, by simp, by simp⟩, by simp⟩

/-- Witness of C7, amended: a body that is not JSON against a body whose stream breaks. -/
theorem fetch_parse_failure_distinct_witness :
    sends (fetch worldBadJSON "http://viacep.com.br/ws/01153000/json/" "ViaCEP")
        = [{ Source := "ViaCEP", Address := none,
             Error := some (.json
               { msg := "invalid character '<' looking for beginning of value" }) }] ∧
      (∃ res, sends (fetch worldBrokenBody "http://viacep.com.br/ws/01153000/json/" "ViaCEP")
          = [res] ∧ res.Source = "ViaCEP" ∧ res.Error ≠ none ∧
        res.Error ≠ some (.json
          { msg := "invalid character '<' looking for beginning of value" })) ∧
      sends (fetch worldBrokenBody "http://viacep.com.br/ws/01153000/json/" "ViaCEP")
        ≠ sends (fetch worldBadJSON "http://viacep.com.br/ws/01153000/json/" "ViaCEP") :=
  fetch_parse_failure_distinct worldBadJSON worldBrokenBody
    "http://viacep.com.br/ws/01153000/json/" "http://viacep.com.br/ws/01153000/json/" "ViaCEP"
    { Method := "GET", URL := "http://viacep.com.br/ws/01153000/json/" } 500 "<html>"
    { msg := "invalid character '<' looking for beginning of value" } rfl rfl rfl rfl
    { Method := "GET", URL := "http://viacep.com.br/ws/01153000/json/" } rfl
    (Or.inr ⟨200, { msg := "unexpected EOF" }, rfl, rfl⟩)

/-- C8: for every `cep`, each fetcher asks for its template with `cep` put in as it is:
`fetchFromBrasilAPI` is `fetch` on `"https://brasilapi.com.br/api/cep/v1/" ++ cep` and
`fetchFromViaCEP` is `fetch` on `"http://viacep.com.br/ws/" ++ cep ++ "/json/"`, and these
are the only URLs they build a request for. -/
theorem fetchers_request_template_with_cep (w : World Resp Body A) (cep : String) :
    fetchFromBrasilAPI w cep
        = fetch w ("https://brasilapi.com.br/api/cep/v1/" ++ cep) "BrasilAPI" ∧
      fetchFromViaCEP w cep
        = fetch w ("http://viacep.com.br/ws/" ++ cep ++ "/json/") "ViaCEP" ∧
      requestedURLs (fetchFromBrasilAPI w cep)
        = ["https://brasilapi.com.br/api/cep/v1/" ++ cep] ∧
      requestedURLs (fetchFromViaCEP w cep)
        = ["http://viacep.com.br/ws/" ++ cep ++ "/json/"] := by
  have hb : fetchFromBrasilAPI w cep
      = fetch w ("https://brasilapi.com.br/api/cep/v1/" ++ cep) "BrasilAPI" := by
    unfold fetchFromBrasilAPI
    rw [sprintf_brasilAPI]
  have hv : fetchFromViaCEP w cep
      = fetch w ("http://viacep.com.br/ws/" ++ cep ++ "/json/") "ViaCEP" := by
    unfold fetchFromViaCEP
    rw [sprintf_viaCEP]
  refine ⟨hb, hv, ?_, ?_⟩
  · rw [hb, requestedURLs_fetch]
  · rw [hv, requestedURLs_fetch]

/-- C9 as stated fails: on a `cep` whose URL cannot be turned into a request, `fetch`
returns before `http.DefaultClient.Do` and performs no network call, while it still sends
its one response. -/
theorem fetch_bad_url_no_network_call :
    networkCalls (fetchFromViaCEP worldStrictURL "%zz") = [] ∧
      (networkCalls (fetchFromViaCEP worldStrictURL "%zz")).length ≠ 1 ∧
      sends (fetchFromViaCEP worldStrictURL "%zz")
        = [{ Source := "ViaCEP", Address := none,
             Error := some (.url { Op := "parse", URL := "http://viacep.com.br/ws/%zz/json/",
                                   Err := "invalid URL escape" }) }] := by
  decide

/-- C9, amended: `fetch` performs at most one network call, never a second one; it performs
exactly one, on the request it built, when request construction succeeds, and none when
request construction fails. -/
theorem fetch_network_calls (w : World Resp Body A) (url source : String) :
    (networkCalls (fetch w url source)).length ≤ 1 ∧
      networkCalls (fetch w url source) =
        match w.newRequest "GET" url with
        | .error _ => []
        | .ok req => [req] := by
  refine ⟨?_, networkCalls_fetch w url source⟩
  rw [networkCalls_fetch]
  cases w.newRequest "GET" url with
  | error err => simp
  | ok req => simp

/-! ## The channel never overflows -/

theorem stepFetcher_some (chan chan' : List (APIResponse A)) (prog prog' : List (Effect A))
    (h : stepFetcher chan prog = some (chan', prog')) :
    chan'.length + (sends prog').length = chan.length + (sends prog).length ∧
      ∃ arrived, chan' = chan ++ arrived := by
  cases prog with
  | nil => simp [stepFetcher] at h
  | cons e rest =>
    cases e with
    | send res =>
      simp only [stepFetcher] at h
      split at h
      · simp only [Option.some.injEq, Prod.mk.injEq] at h
        obtain ⟨h1, h2⟩ := h
        subst h1 h2
        refine ⟨?_, [res], rfl⟩
        simp only [sends, List.length_append, List.length_cons, List.length_nil]
        omega
      · simp at h
    | newRequest method url =>
      simp only [stepFetcher, Option.some.injEq, Prod.mk.injEq] at h
      obtain ⟨h1, h2⟩ := h
      subst h1 h2
      exact ⟨by simp [sends], [], by simp⟩
    | clientDo req =>
      simp only [stepFetcher, Option.some.injEq, Prod.mk.injEq] at h
      obtain ⟨h1, h2⟩ := h
      subst h1 h2
      exact ⟨by simp [sends], [], by simp⟩
    | readAll =>
      simp only [stepFetcher, Option.some.injEq, Prod.mk.injEq] at h
      obtain ⟨h1, h2⟩ := h
      subst h1 h2
      exact ⟨by simp [sends], [], by simp⟩
    | unmarshal =>
      simp only [stepFetcher, Option.some.injEq, Prod.mk.injEq] at h
      obtain ⟨h1, h2⟩ := h
      subst h1 h2
      exact ⟨by simp [sends], [], by simp⟩
    | closeBody =>
      simp only [stepFetcher, Option.some.injEq, Prod.mk.injEq] at h
      obtain ⟨h1, h2⟩ := h
      subst h1 h2
      exact ⟨by simp [sends], [], by simp⟩

theorem stepFetcher_enabled (chan : List (APIResponse A)) (prog : List (Effect A))
    (hprog : prog ≠ []) (hroom : chan.length + (sends prog).length ≤ chanCapacity) :
    (stepFetcher chan prog).isSome = true := by
  cases prog with
  | nil => exact absurd rfl hprog
  | cons e rest =>
    cases e with
    | send res =>
      have hlt : chan.length < chanCapacity := by
        simp only [sends, List.length_cons] at hroom
        omega
      simp [stepFetcher, hlt]
    | newRequest method url => simp [stepFetcher]
    | clientDo req => simp [stepFetcher]
    | readAll => simp [stepFetcher]
    | unmarshal => simp [stepFetcher]
    | closeBody => simp [stepFetcher]

theorem load_step (s t : State A) (a : Action) (h : step s a = some t) : load t ≤ load s := by
  cases a with
  | brasilAPI =>
    simp only [step] at h
    cases hf : stepFetcher s.resultChan s.brasilAPI with
    | none => simp [hf] at h
    | some p =>
      obtain ⟨chan, prog⟩ := p
      simp only [hf, Option.some.injEq] at h
      subst h
      have := (stepFetcher_some _ _ _ _ hf).1
      simp only [load]
      omega
  | viaCEP =>
    simp only [step] at h
    cases hf : stepFetcher s.resultChan s.viaCEP with
    | none => simp [hf] at h
    | some p =>
      obtain ⟨chan, prog⟩ := p
      simp only [hf, Option.some.injEq] at h
      subst h
      have := (stepFetcher_some _ _ _ _ hf).1
      simp only [load]
      omega
  | deadline =>
    simp only [step] at h
    split at h
    · simp at h
    · simp only [Option.some.injEq] at h
      subst h
      exact le_refl _
  | selectDone =>
    simp only [step] at h
    split at h
    · split at h
      · simp only [Option.some.injEq] at h
        subst h
        exact le_refl _
      · simp at h
    · simp at h
  | selectRecv =>
    simp only [step] at h
    split at h
    · rename_i res rest hc hchan
      simp only [Option.some.injEq] at h
      subst h
      simp only [load, hchan, List.length_cons]
      omega
    · simp at h

theorem load_run (acts : List Action) (s t : State A) (h : run s acts = some t) :
    load t ≤ load s := by
  induction acts generalizing s with
  | nil =>
    simp only [run, Option.some.injEq] at h
    subst h
    exact le_refl _
  | cons a rest ih =>
    simp only [run] at h
    cases hs : step s a with
    | none => simp [hs] at h
    | some m =>
      simp only [hs] at h
      exact le_trans (ih m h) (load_step s m a hs)

theorem load_main (w : World Resp Body A) : load (main w) = chanCapacity := by
  simp only [load, main, fetchFromBrasilAPI, fetchFromViaCEP, sends_fetch_length,
    List.length_nil, chanCapacity]

/-! ## Once `main` has returned -/

theorem step_returned (s t : State A) (a : Action) (result : RaceResult A)
    (hret : s.coordinator = .returned result) (h : step s a = some t) :
    t.coordinator = .returned result ∧ a ≠ .selectDone ∧ a ≠ .selectRecv ∧
      ∃ arrived, t.resultChan = s.resultChan ++ arrived := by
  cases a with
  | brasilAPI =>
    simp only [step] at h
    cases hf : stepFetcher s.resultChan s.brasilAPI with
    | none => simp [hf] at h
    | some p =>
      obtain ⟨chan, prog⟩ := p
      simp only [hf, Option.some.injEq] at h
      subst h
      exact ⟨hret, by simp, by simp, (stepFetcher_some _ _ _ _ hf).2⟩
  | viaCEP =>
    simp only [step] at h
    cases hf : stepFetcher s.resultChan s.viaCEP with
    | none => simp [hf] at h
    | some p =>
      obtain ⟨chan, prog⟩ := p
      simp only [hf, Option.some.injEq] at h
      subst h
      exact ⟨hret, by simp, by simp, (stepFetcher_some _ _ _ _ hf).2⟩
  | deadline =>
    simp only [step] at h
    split at h
    · simp at h
    · simp only [Option.some.injEq] at h
      subst h
      exact ⟨hret, by simp, by simp, [], by simp⟩
  | selectDone =>
    simp [step, hret] at h
  | selectRecv =>
    simp [step, hret] at h

theorem run_returned (acts : List Action) (s t : State A) (result : RaceResult A)
    (hret : s.coordinator = .returned result) (h : run s acts = some t) :
    t.coordinator = .returned result ∧ selectCount acts = 0 ∧
      ∃ arrived, t.resultChan = s.resultChan ++ arrived := by
  induction acts generalizing s with
  | nil =>
    simp only [run, Option.some.injEq] at h
    subst h
    exact ⟨hret, rfl, [], by simp⟩
  | cons a rest ih =>
    simp only [run] at h
    cases hs : step s a with
    | none => simp [hs] at h
    | some m =>
      simp only [hs] at h
      obtain ⟨hm, hd, hr, arrived, harr⟩ := step_returned s m a result hret hs
      obtain ⟨ht, hcount, arrived', harr'⟩ := ih m hm h
      refine ⟨ht, ?_, arrived ++ arrived', ?_⟩
      · simp only [selectCount] at hcount ⊢
        rw [List.count_cons_of_ne (Ne.symm hd), List.count_cons_of_ne (Ne.symm hr)]
        exact hcount
      · rw [harr', harr, List.append_assoc]

/-- The `select` of a waiting `main` that commits to `ev` returns `selectCase ev`. -/
theorem step_select (s t : State A) (a : Action) (ev : SelectEvent A)
    (hwait : s.coordinator = .waiting) (hev : observed s a = some ev)
    (h : step s a = some t) :
    t.coordinator = .returned (selectCase ev) ∧ (a = .selectDone ∨ a = .selectRecv) ∧
      t.resultChan = (if a = .selectRecv then s.resultChan.tail else s.resultChan) := by
  cases a with
  | brasilAPI => simp [observed] at hev
  | viaCEP => simp [observed] at hev
  | deadline => simp [observed] at hev
  | selectDone =>
    simp only [observed] at hev
    split at hev
    · rename_i hdone
      simp only [Option.some.injEq] at hev
      subst hev
      simp only [step, hwait, hdone, if_true, Option.some.injEq] at h
      subst h
      simp
    · simp at hev
  | selectRecv =>
    simp only [observed] at hev
    cases hchan : s.resultChan with
    | nil => simp [hchan] at hev
    | cons res rest =>
      simp only [hchan, Option.some.injEq] at hev
      subst hev
      simp only [step, hwait, hchan, Option.some.injEq] at h
      subst h
      simp

theorem selectCount_run (acts : List Action) (s t : State A) (h : run s acts = some t) :
    selectCount acts ≤ 1 := by
  induction acts generalizing s with
  | nil => simp [selectCount]
  | cons a rest ih =>
    simp only [run] at h
    cases hs : step s a with
    | none => simp [hs] at h
    | some m =>
      simp only [hs] at h
      have hrest := ih m h
      cases a with
      | brasilAPI => simpa [selectCount] using hrest
      | viaCEP => simpa [selectCount] using hrest
      | deadline => simpa [selectCount] using hrest
      | selectDone =>
        have hm : ∃ result, m.coordinator = .returned result := by
          simp only [step] at hs
          split at hs
          · split at hs
            · simp only [Option.some.injEq] at hs
              subst hs
              exact ⟨_, rfl⟩
            · simp at hs
          · simp at hs
        obtain ⟨result, hm⟩ := hm
        have := (run_returned rest m t result hm h).2.1
        simp only [selectCount] at this ⊢
        simp only [List.count_cons_self, List.count_cons_of_ne (show Action.selectRecv ≠ Action.selectDone by decide)]
        omega
      | selectRecv =>
        have hm : ∃ result, m.coordinator = .returned result := by
          simp only [step] at hs
          split at hs
          · simp only [Option.some.injEq] at hs
            subst hs
            exact ⟨_, rfl⟩
          · simp at hs
        obtain ⟨result, hm⟩ := hm
        have := (run_returned rest m t result hm h).2.1
        simp only [selectCount] at this ⊢
        simp only [List.count_cons_self, List.count_cons_of_ne (show Action.selectDone ≠ Action.selectRecv by decide)]
        omega

theorem load_step_of_returned (s t : State A) (a : Action) (result : RaceResult A)
    (hret : s.coordinator = .returned result) (h : step s a = some t) : load t = load s := by
  cases a with
  | brasilAPI =>
    simp only [step] at h
    cases hf : stepFetcher s.resultChan s.brasilAPI with
    | none => simp [hf] at h
    | some p =>
      obtain ⟨chan, prog⟩ := p
      simp only [hf, Option.some.injEq] at h
      subst h
      have := (stepFetcher_some _ _ _ _ hf).1
      simp only [load]
      omega
  | viaCEP =>
    simp only [step] at h
    cases hf : stepFetcher s.resultChan s.viaCEP with
    | none => simp [hf] at h
    | some p =>
      obtain ⟨chan, prog⟩ := p
      simp only [hf, Option.some.injEq] at h
      subst h
      have := (stepFetcher_some _ _ _ _ hf).1
      simp only [load]
      omega
  | deadline =>
    simp only [step] at h
    split at h
    · simp at h
    · simp only [Option.some.injEq] at h
      subst h
      rfl
  | selectDone => simp [step, hret] at h
  | selectRecv => simp [step, hret] at h

theorem load_run_of_returned (acts : List Action) (s t : State A) (result : RaceResult A)
    (hret : s.coordinator = .returned result) (h : run s acts = some t) : load t = load s := by
  induction acts generalizing s with
  | nil =>
    simp only [run, Option.some.injEq] at h
    subst h
    rfl
  | cons a rest ih =>
    simp only [run] at h
    cases hs : step s a with
    | none => simp [hs] at h
    | some m =>
      simp only [hs] at h
      have hm := (step_returned s m a result hret hs).1
      rw [ih m hm h, load_step_of_returned s m a result hret hs]

theorem run_cons (s u : State A) (a : Action) (later : List Action)
    (h : run s (a :: later) = some u) : ∃ t, step s a = some t ∧ run t later = some u := by
  simp only [run] at h
  cases hs : step s a with
  | none => simp [hs] at h
  | some t =>
    simp only [hs] at h
    exact ⟨t, rfl, h⟩

/-! ## The race -/

/-- C1 as stated fails: BrasilAPI answers 500 with a body that is not JSON, its Failure is
the first message the `select` receives, ViaCEP then sends a Success while the deadline has
not passed, and the race has ended with the error of BrasilAPI, not with the Success of
ViaCEP, which stays in the buffer. -/
theorem first_failure_preempts_later_success :
    (run (main worldBrasilBadBody)
        [.brasilAPI, .brasilAPI, .brasilAPI, .brasilAPI, .brasilAPI, .selectRecv,
          .viaCEP, .viaCEP, .viaCEP, .viaCEP, .viaCEP]).map (fun s => s.coordinator)
        = some (.returned (.error
            (.json { msg := "invalid character '<' looking for beginning of value" }))) ∧
      (run (main worldBrasilBadBody)
        [.brasilAPI, .brasilAPI, .brasilAPI, .brasilAPI, .brasilAPI, .selectRecv,
          .viaCEP, .viaCEP, .viaCEP, .viaCEP, .viaCEP]).map (fun s => s.coordinator)
        ≠ some (.returned (.fastest "ViaCEP"
            (some [("cep", "01153000"), ("city", "São Paulo")]))) ∧
      (run (main worldBrasilBadBody)
        [.brasilAPI, .brasilAPI, .brasilAPI, .brasilAPI, .brasilAPI, .selectRecv,
          .viaCEP, .viaCEP, .viaCEP, .viaCEP, .viaCEP]).map (fun s => s.resultChan)
        = some [viaCEPSuccess] ∧
      (run (main worldBrasilBadBody)
        [.brasilAPI, .brasilAPI, .brasilAPI, .brasilAPI, .brasilAPI, .selectRecv,
          .viaCEP, .viaCEP, .viaCEP, .viaCEP, .viaCEP]).map (fun s => s.deadlinePassed)
        = some false := by
  decide

/-- C1, amended: if a Failure is the first message the `select` of `main` receives, the race
ends with the error of that Failure and stays so whatever happens next: it never becomes a
Success, the `select` takes no further case, and a response that arrives later stays in
the buffer behind the ones that were already there. -/
theorem first_failure_is_race_result (s u : State A) (res : APIResponse A)
    (rest : List (APIResponse A)) (err : GoError) (later : List Action)
    (hwait : s.coordinator = .waiting) (hchan : s.resultChan = res :: rest)
    (herr : res.Error = some err) (hrun : run s (.selectRecv :: later) = some u) :
    u.coordinator = .returned (.error err) ∧
      (∀ source address, u.coordinator ≠ .returned (.fastest source address)) ∧
      selectCount later = 0 ∧ ∃ arrived, u.resultChan = rest ++ arrived := by
  obtain ⟨t, hstep, hlater⟩ := run_cons s u .selectRecv later hrun
  have hobs : observed s .selectRecv = some (.recv res) := by simp [observed, hchan]
  obtain ⟨hcoord, _, htail⟩ := step_select s t .selectRecv (.recv res) hwait hobs hstep
  have hcase : selectCase (.recv res) = RaceResult.error err := by simp [selectCase, herr]
  rw [hcase] at hcoord
  obtain ⟨hu, hcount, arrived, harr⟩ := run_returned later t u _ hcoord hlater
  refine ⟨hu, ?_, hcount, arrived, ?_⟩
  · intro source address h
    rw [hu] at h
    cases h
  · rw [harr, htail, hchan]
    simp

/-- Witness of C1, amended: the Failure of BrasilAPI is received first and ViaCEP sends its
Success afterwards. -/
theorem first_failure_is_race_result_witness :
    run (main worldBrasilBadBody)
        [.viaCEP, .brasilAPI, .brasilAPI, .brasilAPI, .viaCEP, .brasilAPI, .brasilAPI]
        = some failureBuffered ∧
      (failureSettled.coordinator = .returned (.error
          (.json { msg := "invalid character '<' looking for beginning of value" })) ∧
        (∀ source address, failureSettled.coordinator ≠ .returned (.fastest source address)) ∧
        selectCount [.viaCEP, .viaCEP, .viaCEP, .brasilAPI, .viaCEP] = 0 ∧
        ∃ arrived, failureSettled.resultChan = [] ++ arrived) :=
  ⟨by decide,
    first_failure_is_race_result failureBuffered failureSettled brasilFailure []
      (.json { msg := "invalid character '<' looking for beginning of value" })
      [.viaCEP, .viaCEP, .viaCEP, .brasilAPI, .viaCEP] rfl rfl rfl (by decide)⟩

/-- C3: when one Success is in the buffer, the context is live and `main` is in its `select`,
the `select` cannot take the timeout case; it receives that Success and `main` reports its
source and its mapping as they are.  Nothing of the other provider is consumed: the buffer
is left empty, the fetchers are untouched, and from then on the `select` takes no case, so
every response still to be sent is either unsent or in the buffer. -/
theorem lone_success_wins (s : State A) (res : APIResponse A)
    (hwait : s.coordinator = .waiting) (hlive : s.ctxDone = false)
    (hchan : s.resultChan = [res]) (hok : res.Error = none) :
    step s .selectDone = none ∧
      ∃ t, step s .selectRecv = some t ∧
        t.coordinator = .returned (.fastest res.Source res.Address) ∧
        t.resultChan = [] ∧ t.brasilAPI = s.brasilAPI ∧ t.viaCEP = s.viaCEP ∧
        ∀ later u, run t later = some u →
          u.coordinator = .returned (.fastest res.Source res.Address) ∧
          selectCount later = 0 ∧
          u.resultChan.length + (sends u.brasilAPI).length + (sends u.viaCEP).length
            = (sends s.brasilAPI).length + (sends s.viaCEP).length := by
  refine ⟨by simp [step, hwait, hlive], ?_⟩
  refine ⟨{ s with
      resultChan := []
      coordinator := .returned (selectCase (.recv res))
      cancelCalled := true }, by simp [step, hwait, hchan], by simp [selectCase, hok],
    rfl, rfl, rfl, ?_⟩
  intro later u hu
  have hcase : selectCase (.recv res) = RaceResult.fastest res.Source res.Address := by
    simp [selectCase, hok]
  obtain ⟨hcoord, hcount, _⟩ := run_returned later _ u (selectCase (.recv res)) rfl hu
  have hload := load_run_of_returned later _ u (selectCase (.recv res)) rfl hu
  refine ⟨by rw [hcoord, hcase], hcount, ?_⟩
  simpa [load] using hload

/-- Witness of C3: ViaCEP has answered, BrasilAPI has not. -/
theorem lone_success_wins_witness :
    run (main worldBothAnswer) [.viaCEP, .viaCEP, .viaCEP, .viaCEP, .viaCEP, .brasilAPI]
        = some successBuffered ∧
      (step successBuffered .selectDone = none ∧
        ∃ t, step successBuffered .selectRecv = some t ∧
          t.coordinator = .returned (.fastest viaCEPSuccess.Source viaCEPSuccess.Address) ∧
          t.resultChan = [] ∧ t.brasilAPI = successBuffered.brasilAPI ∧
          t.viaCEP = successBuffered.viaCEP ∧
          ∀ later u, run t later = some u →
            u.coordinator
              = .returned (.fastest viaCEPSuccess.Source viaCEPSuccess.Address) ∧
            selectCount later = 0 ∧
            u.resultChan.length + (sends u.brasilAPI).length + (sends u.viaCEP).length
              = (sends successBuffered.brasilAPI).length
                + (sends successBuffered.viaCEP).length) :=
  ⟨by decide, lone_success_wins successBuffered viaCEPSuccess rfl rfl rfl rfl⟩

/-- C4: when the deadline has passed, the buffer is empty and `main` is in its `select`, the
`select` cannot receive; it takes the timeout case and `main` reports the timeout, which is
neither a Success nor an Error, and from then on the `select` takes no case whatever the
fetchers send. -/
theorem deadline_first_is_timeout (s : State A)
    (hwait : s.coordinator = .waiting) (hdead : s.deadlinePassed = true)
    (hchan : s.resultChan = []) :
    step s .selectRecv = none ∧
      ∃ t, step s .selectDone = some t ∧ t.coordinator = .returned .timeout ∧
        t.resultChan = [] ∧
        ∀ later u, run t later = some u →
          u.coordinator = .returned .timeout ∧
          (∀ err, u.coordinator ≠ .returned (.error err)) ∧
          (∀ source address, u.coordinator ≠ .returned (.fastest source address)) ∧
          selectCount later = 0 := by
  refine ⟨by simp [step, hwait, hchan], ?_⟩
  refine ⟨{ s with coordinator := .returned (selectCase .ctxDone), cancelCalled := true },
    by simp [step, hwait, State.ctxDone, hdead], rfl, hchan, ?_⟩
  intro later u hu
  obtain ⟨hcoord, hcount, _⟩ := run_returned later _ u (selectCase .ctxDone) rfl hu
  have hcase : (selectCase .ctxDone : RaceResult A) = RaceResult.timeout := rfl
  rw [hcase] at hcoord
  refine ⟨hcoord, ?_, ?_, hcount⟩
  · intro err h
    rw [hcoord] at h
    cases h
  · intro source address h
    rw [hcoord] at h
    cases h

/-- Witness of C4: both providers are slower than the deadline. -/
theorem deadline_first_is_timeout_witness :
    run (main worldBothAnswer) [.brasilAPI, .viaCEP, .deadline] = some deadlineFirst ∧
      (step deadlineFirst .selectRecv = none ∧
        ∃ t, step deadlineFirst .selectDone = some t ∧ t.coordinator = .returned .timeout ∧
          t.resultChan = [] ∧
          ∀ later u, run t later = some u →
            u.coordinator = .returned .timeout ∧
            (∀ err, u.coordinator ≠ .returned (.error err)) ∧
            (∀ source address, u.coordinator ≠ .returned (.fastest source address)) ∧
            selectCount later = 0) :=
  ⟨by decide, deadline_first_is_timeout deadlineFirst rfl rfl rfl⟩

theorem run_append (before later : List Action) (s : State A) :
    run s (before ++ later) =
      match run s before with
      | some t => run t later
      | none => none := by
  induction before generalizing s with
  | nil => rfl
  | cons a rest ih =>
    simp only [List.cons_append, run]
    cases step s a with
    | none => rfl
    | some m => exact ih m

/-- C5: in every state the race can reach, the buffer of `resultChan` holds at most
`chanCapacity = 2` responses; the two fetchers are launched with one send each, and the
responses in the buffer plus the sends still to come never exceed the capacity, so a fetcher
that has something left to do can always take its next step: its send never blocks, whether
`main` is still in its `select` or has returned. -/
theorem resultChan_never_overflows (w : World Resp Body A) (acts : List Action)
    (s : State A) (hreach : run (main w) acts = some s) :
    chanCapacity = 2 ∧
      (sends (main w).brasilAPI).length = 1 ∧ (sends (main w).viaCEP).length = 1 ∧
      s.resultChan.length ≤ chanCapacity ∧
      s.resultChan.length + (sends s.brasilAPI).length + (sends s.viaCEP).length
        ≤ chanCapacity ∧
      (s.brasilAPI ≠ [] → (step s .brasilAPI).isSome = true) ∧
      (s.viaCEP ≠ [] → (step s .viaCEP).isSome = true) := by
  have hload : load s ≤ chanCapacity := by
    have := load_run acts (main w) s hreach
    rwa [load_main] at this
  simp only [load] at hload
  refine ⟨rfl, sends_fetch_length w _ _, sends_fetch_length w _ _, by omega, hload, ?_, ?_⟩
  · intro hprog
    have hen := stepFetcher_enabled s.resultChan s.brasilAPI hprog (by omega)
    simp only [step]
    cases hf : stepFetcher s.resultChan s.brasilAPI with
    | none => simp [hf] at hen
    | some p => rfl
  · intro hprog
    have hen := stepFetcher_enabled s.resultChan s.viaCEP hprog (by omega)
    simp only [step]
    cases hf : stepFetcher s.resultChan s.viaCEP with
    | none => simp [hf] at hen
    | some p => rfl

/-- Witness of C5: `main` returns on the deadline, then both fetchers send; the buffer is
full and nothing is blocked. -/
theorem resultChan_never_overflows_witness :
    chanCapacity = 2 ∧
      (sends (main worldBothAnswer).brasilAPI).length = 1 ∧
      (sends (main worldBothAnswer).viaCEP).length = 1 ∧
      bothBufferedAfterTimeout.resultChan.length ≤ chanCapacity ∧
      bothBufferedAfterTimeout.resultChan.length
          + (sends bothBufferedAfterTimeout.brasilAPI).length
          + (sends bothBufferedAfterTimeout.viaCEP).length ≤ chanCapacity ∧
      (bothBufferedAfterTimeout.brasilAPI ≠ [] →
        (step bothBufferedAfterTimeout .brasilAPI).isSome = true) ∧
      (bothBufferedAfterTimeout.viaCEP ≠ [] →
        (step bothBufferedAfterTimeout .viaCEP).isSome = true) :=
  resultChan_never_overflows worldBothAnswer
    [.deadline, .selectDone, .brasilAPI, .brasilAPI, .brasilAPI, .brasilAPI, .brasilAPI,
      .viaCEP, .viaCEP, .viaCEP, .viaCEP, .viaCEP, .viaCEP]
    bothBufferedAfterTimeout (by decide)

/-- C10: the `select` of `main` takes one case in a whole run and receives at most one
message; what `main` reports is `selectCase` of the event that `select` committed to, and
stays so whatever the fetchers send afterwards.  Hence two runs, in any two worlds, whose
`select` commits to the same event report the same result; when the event is a message
with a non-nil `Error` the result is that error. -/
theorem select_decides_on_first_event (w w' : World Resp Body A)
    (before before' later later' : List Action) (a a' : Action) (s s' u u' : State A)
    (ev : SelectEvent A)
    (hreach : run (main w) before = some s) (hreach' : run (main w') before' = some s')
    (hwait : s.coordinator = .waiting) (hwait' : s'.coordinator = .waiting)
    (hev : observed s a = some ev) (hev' : observed s' a' = some ev)
    (hrun : run s (a :: later) = some u) (hrun' : run s' (a' :: later') = some u') :
    u.coordinator = .returned (selectCase ev) ∧ u'.coordinator = u.coordinator ∧
      (∀ res err, ev = .recv res → res.Error = some err →
        u.coordinator = .returned (.error err)) ∧
      selectCount (before ++ a :: later) = 1 ∧
      selectCount (before' ++ a' :: later') = 1 ∧
      (before ++ a :: later).count .selectRecv ≤ 1 ∧
      ∃ arrived, u.resultChan
        = (if a = .selectRecv then s.resultChan.tail else s.resultChan) ++ arrived := by
  obtain ⟨t, hstep, hlater⟩ := run_cons s u a later hrun
  obtain ⟨t', hstep', hlater'⟩ := run_cons s' u' a' later' hrun'
  obtain ⟨hcoord, hsel, htail⟩ := step_select s t a ev hwait hev hstep
  obtain ⟨hcoord', hsel', _⟩ := step_select s' t' a' ev hwait' hev' hstep'
  obtain ⟨hu, _, arrived, harr⟩ := run_returned later t u _ hcoord hlater
  obtain ⟨hu', _, _⟩ := run_returned later' t' u' _ hcoord' hlater'
  have hwhole : run (main w) (before ++ a :: later) = some u := by
    rw [run_append, hreach]
    exact hrun
  have hle := selectCount_run _ _ _ hwhole
  have hge : 1 ≤ selectCount (before ++ a :: later) := by
    simp only [selectCount, List.count_append]
    rcases hsel with h | h
    · subst h
      simp only [List.count_cons_self]
      omega
    · subst h
      simp only [List.count_cons_self]
      omega
  have hwhole' : run (main w') (before' ++ a' :: later') = some u' := by
    rw [run_append, hreach']
    exact hrun'
  have hle' := selectCount_run _ _ _ hwhole'
  have hge' : 1 ≤ selectCount (before' ++ a' :: later') := by
    simp only [selectCount, List.count_append]
    rcases hsel' with h | h
    · subst h
      simp only [List.count_cons_self]
      omega
    · subst h
      simp only [List.count_cons_self]
      omega
  refine ⟨hu, by rw [hu, hu'], ?_, by omega, by omega, ?_, arrived, by rw [harr, htail]⟩
  · intro res err hres herr
    subst hres
    rw [hu]
    simp [selectCase, herr]
  · simp only [selectCount] at hle
    omega

/-- Witness of C10: the Failure of BrasilAPI is received first in two worlds; in one of them
ViaCEP sends a Success afterwards. -/
theorem select_decides_on_first_event_witness :
    failureSettled.coordinator = .returned (selectCase (.recv brasilFailure)) ∧
      failureSettledEarly.coordinator = failureSettled.coordinator ∧
      (∀ res err, SelectEvent.recv brasilFailure = .recv res → res.Error = some err →
        failureSettled.coordinator = .returned (.error err)) ∧
      selectCount
        ([.viaCEP, .brasilAPI, .brasilAPI, .brasilAPI, .viaCEP, .brasilAPI, .brasilAPI]
          ++ .selectRecv :: [.viaCEP, .viaCEP, .viaCEP, .brasilAPI, .viaCEP]) = 1 ∧
      selectCount
        ([.brasilAPI, .brasilAPI, .brasilAPI, .brasilAPI, .brasilAPI]
          ++ .selectRecv :: []) = 1 ∧
      List.count Action.selectRecv
        ([Action.viaCEP, .brasilAPI, .brasilAPI, .brasilAPI, .viaCEP, .brasilAPI, .brasilAPI]
          ++ .selectRecv :: [.viaCEP, .viaCEP, .viaCEP, .brasilAPI, .viaCEP]) ≤ 1 ∧
      ∃ arrived, failureSettled.resultChan
        = (if Action.selectRecv = .selectRecv then failureBuffered.resultChan.tail
            else failureBuffered.resultChan) ++ arrived :=
  select_decides_on_first_event worldBrasilBadBody worldBadJSON
    [.viaCEP, .brasilAPI, .brasilAPI, .brasilAPI, .viaCEP, .brasilAPI, .brasilAPI]
    [.brasilAPI, .brasilAPI, .brasilAPI, .brasilAPI, .brasilAPI]
    [.viaCEP, .viaCEP, .viaCEP, .brasilAPI, .viaCEP] []
    .selectRecv .selectRecv failureBuffered failureBufferedEarly failureSettled
    failureSettledEarly (.recv brasilFailure)
    (by decide) (by decide) rfl rfl rfl rfl (by decide) (by decide)

end CepRace
